import Mathlib

/-!
Verification of the service configuration resolution engine of the
local-ai-packaged UI (ServiceOrchestrator component, serviceOrchestration
utilities, serviceDefinitions catalog and the backend docker client).

The TypeScript/JavaScript sources are shallowly embedded: JSON objects become
association lists (`List (String × _)`), which preserves the key-iteration
order that `Object.entries` exhibits; JS truthiness on the relevant fields is
made explicit (a missing `enabled` is `false`, an empty-string map value is
falsy); the recursive dependency traversals, which terminate in JS because the
shared `visited` set grows inside a fixed universe of ids, are given an
explicit fuel that provably exceeds the number of ids.
-/

/-- Embedding of one service entry of a `CustomServicesJson` configuration
(`CustomServiceConfig` in `src/types`): the merged per-service record holding
the mutable `enabled` flag next to the static catalog fields. -/
structure CustomServiceConfig where
  enabled : Bool
  required : Bool
  description : String
  category : String
  dependencies : List String
  profiles : Option (List (String × String)) := none
  pull_services : Option (List (String × String)) := none
deriving Repr, DecidableEq

/-- Embedding of a `CustomServicesJson` value: services keyed by category and
then by service id. The static metadata fields (`version`, `description`,
profile/environment enumerations, user preferences) play no role in the
operations under study and are omitted. -/
structure CustomServicesJson where
  services : List (String × List (String × CustomServiceConfig))
deriving Repr, DecidableEq

/-- The effect of `Object.assign(service, { enabled })`: replace the enabled
flag, keep every other field. -/
def setEnabled (c : CustomServiceConfig) (e : Bool) : CustomServiceConfig :=
  { enabled := e
    required := c.required
    description := c.description
    category := c.category
    dependencies := c.dependencies
    profiles := c.profiles
    pull_services := c.pull_services }

/-- Embedding of one catalog entry of `serviceDefinitions.ts` (the immutable
`ServiceDefinition` without its id, which is the key it is stored under). -/
structure ServiceDefEntry where
  required : Bool
  description : String
  category : String
  dependencies : List String
  profiles : Option (List (String × String)) := none
  pull_services : Option (List (String × String)) := none
deriving Repr, DecidableEq

/-- The catalog: service definitions keyed by category and service id,
mirroring the `serviceDefinitions` object of `serviceDefinitions.ts`. -/
abbrev ServiceDefinitions := List (String × List (String × ServiceDefEntry))

/-- The stored preference state consumed by the merge
(`serviceState?.services?.[categoryId]?.[serviceId]?.enabled`): per category
and service id, the persisted enabled flag. A missing entry reads as
`undefined`, hence `false` after the source's `|| false`. -/
abbrev StoredServiceState := List (String × List (String × Bool))

/-- Association-list lookup by key, modelling JS property access `obj[key]`
(keys of a JS object are unique, so first match is the match). -/
def lookupId {α : Type} : List (String × α) → String → Option α
  | [], _ => none
  | e :: rest, id => if e.1 = id then some e.2 else lookupId rest id

/-- Embedding of `mergeServiceDefinitionsWithState`
(ServiceOrchestrator.tsx lines 68-105): for every catalog definition, the
merged entry takes `enabled` from the stored state defaulted to `false`
(`stateFromApi?.enabled || false`) and every other field from the catalog. -/
def mergeServiceDefinitionsWithState (defs : ServiceDefinitions)
    (state : StoredServiceState) : CustomServicesJson :=
  ⟨defs.map (fun cat =>
    (cat.1, cat.2.map (fun svc =>
      (svc.1,
        { enabled := (((lookupId state cat.1).bind (fun l => lookupId l svc.1)).getD false)
          required := svc.2.required
          description := svc.2.description
          category := svc.2.category
          dependencies := svc.2.dependencies
          profiles := svc.2.profiles
          pull_services := svc.2.pull_services }))))⟩

/-- Lookup of a service id across categories, first category containing the
key wins — the `for ... if (services[serviceId])` scan used throughout the
source. -/
def findService (cfg : CustomServicesJson) (id : String) : Option CustomServiceConfig :=
  cfg.services.findSome? (fun cat => lookupId cat.2 id)

/-- Embedding of `getServiceEnabled` (ServiceOrchestrator.tsx lines 166-173):
the enabled flag of the first occurrence of the id, `false` when absent. -/
def getServiceEnabled (cfg : CustomServicesJson) (id : String) : Bool :=
  ((findService cfg id).map (fun c => c.enabled)).getD false

/-- Helper for `updateServiceInCustomConfig`: update the first category that
contains the id, setting the entry's `enabled` field there. -/
def updateServicesList :
    List (String × List (String × CustomServiceConfig)) → String → Bool →
      List (String × List (String × CustomServiceConfig))
  | [], _, _ => []
  | cat :: rest, id, e =>
    if (lookupId cat.2 id).isSome then
      (cat.1, cat.2.map (fun svc =>
        if svc.1 = id then (svc.1, setEnabled svc.2 e) else svc)) :: rest
    else
      cat :: updateServicesList rest id e

/-- Embedding of `updateServiceInCustomConfig` (serviceOrchestration utils,
part_004 lines 112-128) specialised to the only update the orchestrator
performs, `{ enabled }`: deep-copy the configuration and `Object.assign` the
flag onto the service found in the first category containing it. -/
def updateServiceInCustomConfig (cfg : CustomServicesJson) (id : String) (e : Bool) :
    CustomServicesJson :=
  ⟨updateServicesList cfg.services id e⟩

/-- Embedding of `getServicesDependingOn` (ServiceOrchestrator.tsx lines
204-218): ids of all services, in catalog order, whose dependency list
contains the target — direct reverse edges only, with no enabled filter. -/
def getServicesDependingOn (cfg : CustomServicesJson) (target : String) : List String :=
  cfg.services.flatMap (fun cat => cat.2.filterMap (fun svc =>
    if target ∈ svc.2.dependencies then some svc.1 else none))

/-- All service ids of the configuration, in iteration order (used as the
universe bounding the dependency traversals). -/
def allServiceIds (cfg : CustomServicesJson) : List String :=
  cfg.services.flatMap (fun cat => cat.2.map (fun svc => svc.1))

/-- The push loop of `getServiceDependencies`: append each new element of
`ts` to `l` unless already present (`if (!all.includes(t)) all.push(t)`). -/
def mergePush (l : List String) (ts : List String) : List String :=
  ts.foldl (fun acc t => if t ∈ acc then acc else acc ++ [t]) l

/-- The loop body of `getServiceDependencies` over the direct dependency
list: recurse on each dependency with the shared (threaded) visited set and
merge the transitive results into the accumulated list. -/
def depsGoList (go : String → List String → List String × List String) :
    List String → List String × List String → List String × List String
  | [], acc => acc
  | dep :: rest, acc =>
    let r := go dep acc.2
    depsGoList go rest (mergePush acc.1 r.1, r.2)

/-- Embedding of the recursive core of `getServiceDependencies`
(ServiceOrchestrator.tsx lines 176-201). The JS mutates one shared `visited`
set through the whole recursion; here the set is threaded explicitly and the
JS recursion depth is bounded by an explicit fuel (in JS the function
terminates because every present id enters `visited` at most once). -/
def depsGo (cfg : CustomServicesJson) : Nat → String → List String →
    List String × List String
  | 0, _, visited => ([], visited)
  | Nat.succ f, sid, visited =>
    if sid ∈ visited then ([], visited)
    else
      match findService cfg sid with
      | none => ([], sid :: visited)
      | some c => depsGoList (depsGo cfg f) c.dependencies (c.dependencies, sid :: visited)

/-- Embedding of `getServiceDependencies` at its call sites (fresh empty
visited set): the transitive dependency list of a service. The fuel
`allServiceIds cfg |>.length + 1` strictly exceeds the number of ids, which
the completeness proof below shows is enough for the traversal to finish
exactly as the JS recursion does. -/
def getServiceDependencies (cfg : CustomServicesJson) (sid : String) : List String :=
  (depsGo cfg ((allServiceIds cfg).length + 1) sid []).1

/-- Embedding of the state transition performed by `handleServiceToggle`
(ServiceOrchestrator.tsx lines 116-163): set the service's flag, then on
enable additionally enable every transitive dependency, and on disable
additionally disable every direct dependent. The UI feedback message is
cosmetic and omitted. -/
def handleServiceToggle (cfg : CustomServicesJson) (serviceId : String) (enabled : Bool) :
    CustomServicesJson :=
  let updated := updateServiceInCustomConfig cfg serviceId enabled
  if enabled then
    (getServiceDependencies cfg serviceId).foldl
      (fun acc dep => updateServiceInCustomConfig acc dep true) updated
  else
    (getServicesDependingOn cfg serviceId).foldl
      (fun acc dep => updateServiceInCustomConfig acc dep false) updated

/-- Embedding of `handleSelectAllCategory` (ServiceOrchestrator.tsx lines
297-311): set the enabled flag of every service of the named category; other
categories are untouched and no cascade runs. -/
def handleSelectAllCategory (cfg : CustomServicesJson) (category : String) (e : Bool) :
    CustomServicesJson :=
  ⟨cfg.services.map (fun cat =>
    if cat.1 = category then
      (cat.1, cat.2.map (fun svc => (svc.1, setEnabled svc.2 e)))
    else cat)⟩

/-- Embedding of `handleSelectAllGlobal` (ServiceOrchestrator.tsx lines
313-331): set the enabled flag of every service of every category, again with
no cascade. -/
def handleSelectAllGlobal (cfg : CustomServicesJson) (e : Bool) : CustomServicesJson :=
  ⟨cfg.services.map (fun cat =>
    (cat.1, cat.2.map (fun svc => (svc.1, setEnabled svc.2 e))))⟩

/-- The category in which a service id is first found, if any. -/
def firstCategoryOf (cfg : CustomServicesJson) (id : String) : Option String :=
  cfg.services.findSome? (fun cat => if (lookupId cat.2 id).isSome then some cat.1 else none)

/-- The ids of the enabled services in catalog order (the enabled set of a
configuration, used to state the concrete scenarios). -/
def enabledIds (cfg : CustomServicesJson) : List String :=
  cfg.services.flatMap (fun cat => (cat.2.filter (fun svc => svc.2.enabled)).map (fun svc => svc.1))

/-- The profile-variant lookup `config.profiles?.[profile]`. -/
def profileVariant (c : CustomServiceConfig) (profile : String) : Option String :=
  c.profiles.bind (fun m => lookupId m profile)

/-- The pull-variant lookup `config.pull_services?.[profile]`. -/
def pullVariant (c : CustomServiceConfig) (profile : String) : Option String :=
  c.pull_services.bind (fun m => lookupId m profile)

/-- The ids one enabled service contributes to the effective startup list in
`getEnabledServices`: the profile variant replaces the logical id when one is
declared and truthy (`config.profiles?.[profile] || serviceId`), and a truthy
pull variant is appended (`if (config.pull_services?.[profile])`). -/
def serviceStartIds (profile : String) (id : String) (c : CustomServiceConfig) :
    List String :=
  let actual := match profileVariant c profile with
    | some v => if v = "" then id else v
    | none => id
  let pulls := match pullVariant c profile with
    | some p => if p = "" then [] else [p]
    | none => []
  actual :: pulls

/-- Embedding of `getEnabledServices` (serviceOrchestration utils, part_004
lines 148-167): concatenate, over all services in catalog order, each enabled
service's contribution to the effective startup list. -/
def getEnabledServices (cfg : CustomServicesJson) (profile : String) : List String :=
  cfg.services.flatMap (fun cat => cat.2.flatMap (fun svc =>
    if svc.2.enabled then serviceStartIds profile svc.1 svc.2 else []))

/-- The loop of `resolveDependencies` over a list of ids, threading the
shared (resolved, visited) state. -/
def resolveList (go : String → List String × List String → List String × List String) :
    List String → List String × List String → List String × List String
  | [], st => st
  | d :: rest, st => resolveList go rest (go d st)

/-- Embedding of the recursive `resolveDependency` closure inside
`resolveDependencies` (part_004 lines 169-201): skip visited ids, resolve the
dependencies of a found service first, then add the service itself exactly
when its enabled flag is set. Missing ids fall through silently. The state is
(resolved set as insertion-ordered list, visited set). -/
def resolveGo (cfg : CustomServicesJson) : Nat → String →
    List String × List String → List String × List String
  | 0, _, st => st
  | Nat.succ f, sid, st =>
    if sid ∈ st.2 then st
    else
      match findService cfg sid with
      | none => (st.1, sid :: st.2)
      | some c =>
        let st1 := resolveList (resolveGo cfg f) c.dependencies (st.1, sid :: st.2)
        if c.enabled then
          (if sid ∈ st1.1 then st1.1 else st1.1 ++ [sid], st1.2)
        else st1

/-- Embedding of `resolveDependencies` (part_004 lines 169-201): run the
resolver over every requested id with one shared state and return the
resolved set in insertion order. -/
def resolveDependencies (cfg : CustomServicesJson) (requested : List String) :
    List String :=
  (resolveList (resolveGo cfg ((allServiceIds cfg).length + 1)) requested ([], [])).1

/-- Transitive forward dependency: `DependsOn cfg u t` holds when `t` is
reachable from `u` along a nonempty chain of declared dependency edges, each
edge leaving a service actually present in the configuration. This is the
specification-level notion of a transitive dependency. -/
inductive DependsOn (cfg : CustomServicesJson) (u : String) : String → Prop
  | direct {t : String} {c : CustomServiceConfig} :
      findService cfg u = some c → t ∈ c.dependencies → DependsOn cfg u t
  | step {v t : String} {c : CustomServiceConfig} :
      DependsOn cfg u v → findService cfg v = some c → t ∈ c.dependencies →
      DependsOn cfg u t

/-- Embedding of the CPU-percent computation of `getContainerStats`
(dockerClient.js lines 137-140), over exact rationals: both deltas are
current minus previous cumulative counters and a non-positive system delta
short-circuits to zero. -/
def calcCpuPercent (totalUsage precpuTotal systemUsage precpuSystem onlineCpus : ℚ) : ℚ :=
  let cpuDelta := totalUsage - precpuTotal
  let systemDelta := systemUsage - precpuSystem
  if systemDelta > 0 then cpuDelta / systemDelta * onlineCpus * 100 else 0

/-- Embedding of the memory-percent computation of `getContainerStats`
(dockerClient.js lines 142-145): used over limit times one hundred, guarded
to zero when the limit is not positive. -/
def calcMemoryPercent (usage limit : ℚ) : ℚ :=
  if limit > 0 then usage / limit * 100 else 0

/-- Lower-cased character list of a message (the `message.toLowerCase()`
view that `detectLogLevel` matches against). -/
def lowerChars (s : String) : List Char :=
  s.data.map Char.toLower

/-- Substring containment on character lists, modelling JS
`String.prototype.includes`. -/
def containsSub : List Char → List Char → Bool
  | [], pat => pat.isEmpty
  | h :: t, pat => pat.isPrefixOf (h :: t) || containsSub t pat

/-- Embedding of `detectLogLevel` (dockerClient.js lines 301-313): first
match wins among error/fatal, warn, debug, defaulting to info. -/
def detectLogLevel (message : String) : String :=
  let lower := lowerChars message
  if containsSub lower "error".data || containsSub lower "fatal".data then "error"
  else if containsSub lower "warn".data then "warn"
  else if containsSub lower "debug".data then "debug"
  else "info"

/-- A three-service chain catalog: `A` depends on `B`, `B` depends on `C`,
all disabled and none required — the concrete scenario of the spec. -/
def cfgChain : CustomServicesJson :=
  ⟨[("apps",
     [("A", { enabled := false, required := false, description := "svc A",
              category := "ai", dependencies := ["B"] }),
      ("B", { enabled := false, required := false, description := "svc B",
              category := "ai", dependencies := ["C"] }),
      ("C", { enabled := false, required := false, description := "svc C",
              category := "ai", dependencies := [] })])]⟩

/-- The same chain with every service enabled (the disable-cascade scenario
of the spec starts from here). -/
def cfgChainOn : CustomServicesJson :=
  ⟨[("apps",
     [("A", { enabled := true, required := false, description := "svc A",
              category := "ai", dependencies := ["B"] }),
      ("B", { enabled := true, required := false, description := "svc B",
              category := "ai", dependencies := ["C"] }),
      ("C", { enabled := true, required := false, description := "svc C",
              category := "ai", dependencies := [] })])]⟩

/-- A two-service catalog: `A` depends on `B`, both disabled, none required
(exhibits the enable-then-disable round trip). -/
def cfgPair : CustomServicesJson :=
  ⟨[("apps",
     [("A", { enabled := false, required := false, description := "svc A",
              category := "ai", dependencies := ["B"] }),
      ("B", { enabled := false, required := false, description := "svc B",
              category := "ai", dependencies := [] })])]⟩

/-- A catalog split over two categories: category `cat1` holds `A` which
depends on `B`, category `cat2` holds `B`; both disabled (exhibits the
difference between the bulk toggle and single-service toggles). -/
def cfgSplit : CustomServicesJson :=
  ⟨[("cat1",
     [("A", { enabled := false, required := false, description := "svc A",
              category := "ai", dependencies := ["B"] })]),
    ("cat2",
     [("B", { enabled := false, required := false, description := "svc B",
              category := "database", dependencies := [] })])]⟩

/-- A catalog with a single required service (the shape of the `caddy` entry
of the repository's default configuration, which carries `required: true`). -/
def defsRequired : ServiceDefinitions :=
  [("core",
    [("caddy", { required := true, description := "Reverse proxy with automatic HTTPS",
                 category := "infrastructure", dependencies := [] })])]

/-- A configuration holding one enabled, required service. -/
def cfgRequired : CustomServicesJson :=
  ⟨[("core",
     [("caddy", { enabled := true, required := true,
                  description := "Reverse proxy with automatic HTTPS",
                  category := "infrastructure", dependencies := [] })])]⟩

/-- A configuration where `B` depends on `A` but `B` is disabled (exhibits
the missing enabled filter of the reverse-dependency scan). -/
def cfgReverse : CustomServicesJson :=
  ⟨[("apps",
     [("A", { enabled := true, required := false, description := "svc A",
              category := "ai", dependencies := [] }),
      ("B", { enabled := false, required := false, description := "svc B",
              category := "ai", dependencies := ["A"] })])]⟩

/-- An enabled service carrying profile and pull variants (the shape of the
`ollama` catalog entry). -/
def svcD : CustomServiceConfig :=
  { enabled := true, required := false, description := "llm svc",
    category := "ai", dependencies := [],
    profiles := some [("cpu", "D-cpu"), ("gpu-nvidia", "D-gpu")],
    pull_services := some [("cpu", "D-pull-cpu")] }

/-- An enabled service without any variants. -/
def svcE : CustomServiceConfig :=
  { enabled := true, required := false, description := "plain svc",
    category := "ai", dependencies := [] }

/-- A configuration with profile and pull variants on service `D` plus a
variant-free service `E`, both enabled — the profile-resolution scenario of
the spec. -/
def cfgVariants : CustomServicesJson :=
  ⟨[("llm", [("D", svcD), ("E", svcE)])]⟩

/-! ### Helper lemmas about lookups and the enabled-flag update -/

/-- Looking up the updated id in a category mapped by the enabled-flag update
returns the old entry with the flag replaced. -/
theorem lookupId_setEnabled_self (svcs : List (String × CustomServiceConfig))
    (id : String) (e : Bool) :
    lookupId (svcs.map (fun svc =>
        if svc.1 = id then (svc.1, setEnabled svc.2 e) else svc)) id
      = (lookupId svcs id).map (fun c => setEnabled c e) := by
  induction svcs with
  | nil => rfl
  | cons hd tl ih =>
    by_cases h : hd.1 = id
    · simp [lookupId, h]
    · simp [lookupId, h, ih]

/-- Looking up a different id in a category mapped by the enabled-flag update
is unchanged. -/
theorem lookupId_setEnabled_ne (svcs : List (String × CustomServiceConfig))
    {id t : String} (e : Bool) (h : t ≠ id) :
    lookupId (svcs.map (fun svc =>
        if svc.1 = id then (svc.1, setEnabled svc.2 e) else svc)) t
      = lookupId svcs t := by
  induction svcs with
  | nil => rfl
  | cons hd tl ih =>
    by_cases h1 : hd.1 = id
    · simp [lookupId, h1, Ne.symm h, ih]
    · by_cases h3 : hd.1 = t
      · simp [lookupId, h1, h3, h]
      · simp [lookupId, h1, h3, ih]

/-- The update hits exactly the updated id: looking it up afterwards yields
the old entry with the flag replaced. -/
theorem findService_update_self (cfg : CustomServicesJson) (id : String) (e : Bool) :
    findService (updateServiceInCustomConfig cfg id e) id
      = (findService cfg id).map (fun c => setEnabled c e) := by
  show (updateServicesList cfg.services id e).findSome? (fun cat => lookupId cat.2 id)
      = (cfg.services.findSome? (fun cat => lookupId cat.2 id)).map
          (fun c => setEnabled c e)
  induction cfg.services with
  | nil => rfl
  | cons hd tl ih =>
    by_cases h : (lookupId hd.2 id).isSome
    · obtain ⟨c, hc⟩ := Option.isSome_iff_exists.mp h
      simp [updateServicesList, h, List.findSome?_cons, lookupId_setEnabled_self, hc]
    · have hc : lookupId hd.2 id = none := Option.not_isSome_iff_eq_none.mp h
      simp [updateServicesList, h, List.findSome?_cons, hc, ih]

/-- The update leaves every other id unchanged. -/
theorem findService_update_ne (cfg : CustomServicesJson) {id t : String} (e : Bool)
    (h : t ≠ id) :
    findService (updateServiceInCustomConfig cfg id e) t = findService cfg t := by
  show (updateServicesList cfg.services id e).findSome? (fun cat => lookupId cat.2 t)
      = cfg.services.findSome? (fun cat => lookupId cat.2 t)
  induction cfg.services with
  | nil => rfl
  | cons hd tl ih =>
    by_cases h1 : (lookupId hd.2 id).isSome
    · simp [updateServicesList, h1, List.findSome?_cons, lookupId_setEnabled_ne _ e h]
    · simp [updateServicesList, h1, List.findSome?_cons, ih]

/-- The enabled-flag update keeps every key and dependency list, so the
reverse-edge scan of one category is unchanged by it. -/
theorem filterMap_deps_setEnabled (svcs : List (String × CustomServiceConfig))
    (id : String) (e : Bool) (target : String) :
    (svcs.map (fun svc =>
        if svc.1 = id then (svc.1, setEnabled svc.2 e) else svc)).filterMap
      (fun svc => if target ∈ svc.2.dependencies then some svc.1 else none)
      = svcs.filterMap
          (fun svc => if target ∈ svc.2.dependencies then some svc.1 else none) := by
  rw [List.filterMap_map]
  apply List.filterMap_congr
  intro svc _
  by_cases h : svc.1 = id <;> simp [Function.comp, h, setEnabled]

/-- The enabled-flag update does not change the reverse-dependency scan. -/
theorem getServicesDependingOn_update (cfg : CustomServicesJson) (id : String)
    (e : Bool) (target : String) :
    getServicesDependingOn (updateServiceInCustomConfig cfg id e) target
      = getServicesDependingOn cfg target := by
  show (updateServicesList cfg.services id e).flatMap
        (fun cat => cat.2.filterMap
          (fun svc => if target ∈ svc.2.dependencies then some svc.1 else none))
      = cfg.services.flatMap
          (fun cat => cat.2.filterMap
            (fun svc => if target ∈ svc.2.dependencies then some svc.1 else none))
  induction cfg.services with
  | nil => rfl
  | cons hd tl ih =>
    by_cases h : (lookupId hd.2 id).isSome
    · have hstep : updateServicesList (hd :: tl) id e
          = (hd.1, hd.2.map (fun svc =>
              if svc.1 = id then (svc.1, setEnabled svc.2 e) else svc)) :: tl := by
        simp [updateServicesList, h]
      rw [hstep, List.flatMap_cons, List.flatMap_cons, filterMap_deps_setEnabled]
    · simp [updateServicesList, h, List.flatMap_cons, ih]

/-- A left fold of enabled-flag updates, all writing the same value, acts on
lookups like a single conditional update over the whole id list. -/
theorem findService_foldl_update (ids : List String) (cfg : CustomServicesJson)
    (v : Bool) (t : String) :
    findService (ids.foldl (fun acc i => updateServiceInCustomConfig acc i v) cfg) t
      = if t ∈ ids then (findService cfg t).map (fun c => setEnabled c v)
        else findService cfg t := by
  induction ids generalizing cfg with
  | nil => simp
  | cons i rest ih =>
    rw [List.foldl_cons, ih]
    by_cases hr : t ∈ rest
    · by_cases hi : t = i
      · subst hi
        simp [hr, findService_update_self, Option.map_map]
        cases findService cfg t <;> rfl
      · simp [hr, findService_update_ne cfg v hi]
    · by_cases hi : t = i
      · subst hi
        simp [hr, findService_update_self]
      · simp [hr, hi, findService_update_ne cfg v hi]

/-- A left fold of enabled-flag updates does not change the
reverse-dependency scan. -/
theorem getServicesDependingOn_foldl_update (ids : List String)
    (cfg : CustomServicesJson) (v : Bool) (target : String) :
    getServicesDependingOn
        (ids.foldl (fun acc i => updateServiceInCustomConfig acc i v) cfg) target
      = getServicesDependingOn cfg target := by
  induction ids generalizing cfg with
  | nil => rfl
  | cons i rest ih =>
    rw [List.foldl_cons, ih, getServicesDependingOn_update]

/-- The disable branch of the toggle is a fold of flag-false updates over the
toggled service followed by its direct dependents. -/
theorem toggle_off_eq_foldl (cfg : CustomServicesJson) (S : String) :
    handleServiceToggle cfg S false
      = (S :: getServicesDependingOn cfg S).foldl
          (fun acc dep => updateServiceInCustomConfig acc dep false) cfg := by
  simp [handleServiceToggle, List.foldl_cons]

/-- The enable branch of the toggle is a fold of flag-true updates over the
toggled service followed by its transitive dependency list. -/
theorem toggle_on_eq_foldl (cfg : CustomServicesJson) (S : String) :
    handleServiceToggle cfg S true
      = (S :: getServiceDependencies cfg S).foldl
          (fun acc dep => updateServiceInCustomConfig acc dep true) cfg := by
  simp [handleServiceToggle, List.foldl_cons]

/-- Lookup after a disable toggle: the toggled service and its direct
dependents have their flag cleared, everything else is untouched. -/
theorem toggle_off_findService (cfg : CustomServicesJson) (S t : String) :
    findService (handleServiceToggle cfg S false) t
      = if t = S ∨ t ∈ getServicesDependingOn cfg S then
          (findService cfg t).map (fun c => setEnabled c false)
        else findService cfg t := by
  rw [toggle_off_eq_foldl, findService_foldl_update]
  simp [List.mem_cons]

/-- Enabled flag after a disable toggle. -/
theorem toggle_off_enabled (cfg : CustomServicesJson) (S t : String) :
    getServiceEnabled (handleServiceToggle cfg S false) t
      = if t = S ∨ t ∈ getServicesDependingOn cfg S then false
        else getServiceEnabled cfg t := by
  unfold getServiceEnabled
  rw [toggle_off_findService]
  by_cases h : t = S ∨ t ∈ getServicesDependingOn cfg S
  · simp only [h, if_true]
    cases findService cfg t <;> rfl
  · simp [h]

/-- Lookup after an enable toggle: the toggled service and its computed
transitive dependencies have their flag set, everything else is untouched. -/
theorem toggle_on_findService (cfg : CustomServicesJson) (S t : String) :
    findService (handleServiceToggle cfg S true) t
      = if t = S ∨ t ∈ getServiceDependencies cfg S then
          (findService cfg t).map (fun c => setEnabled c true)
        else findService cfg t := by
  rw [toggle_on_eq_foldl, findService_foldl_update]
  simp [List.mem_cons]

/-- Enabled flag after an enable toggle: set for the toggled service and its
computed dependencies whenever they exist, untouched otherwise. -/
theorem toggle_on_enabled (cfg : CustomServicesJson) (S t : String) :
    getServiceEnabled (handleServiceToggle cfg S true) t
      = if t = S ∨ t ∈ getServiceDependencies cfg S then (findService cfg t).isSome
        else getServiceEnabled cfg t := by
  unfold getServiceEnabled
  rw [toggle_on_findService]
  by_cases h : t = S ∨ t ∈ getServiceDependencies cfg S
  · simp only [h, if_true]
    cases findService cfg t <;> rfl
  · simp [h]

/-- An enable toggle does not change the reverse-dependency scan. -/
theorem getServicesDependingOn_toggle_on (cfg : CustomServicesJson) (S target : String) :
    getServicesDependingOn (handleServiceToggle cfg S true) target
      = getServicesDependingOn cfg target := by
  rw [toggle_on_eq_foldl, getServicesDependingOn_foldl_update]

/-! ### Completeness of the visited-set dependency traversal -/

/-- Unfolding equation for the empty dependency list. -/
theorem depsGoList_nil (go : String → List String → List String × List String)
    (acc : List String × List String) : depsGoList go [] acc = acc := rfl

/-- Unfolding equation for a nonempty dependency list. -/
theorem depsGoList_cons (go : String → List String → List String × List String)
    (d : String) (rest : List String) (acc : List String × List String) :
    depsGoList go (d :: rest) acc
      = depsGoList go rest (mergePush acc.1 (go d acc.2).1, (go d acc.2).2) := rfl

/-- Membership in the push-merge is membership in either operand. -/
theorem mem_mergePush {l ts : List String} {x : String} :
    x ∈ mergePush l ts ↔ x ∈ l ∨ x ∈ ts := by
  induction ts generalizing l with
  | nil => simp [mergePush]
  | cons t rest ih =>
    show x ∈ mergePush (if t ∈ l then l else l ++ [t]) rest ↔ _
    rw [ih]
    by_cases h : t ∈ l
    · simp only [h, if_true, List.mem_cons]
      constructor
      · rintro (hx | hx)
        · exact Or.inl hx
        · exact Or.inr (Or.inr hx)
      · rintro (hx | hx | hx)
        · exact Or.inl hx
        · exact Or.inl (hx ▸ h)
        · exact Or.inr hx
    · simp only [h, if_false, List.mem_append, List.mem_cons,
        List.not_mem_nil, or_false]
      constructor
      · rintro ((hx | hx) | hx)
        · exact Or.inl hx
        · exact Or.inr (Or.inl hx)
        · exact Or.inr (Or.inr hx)
      · rintro (hx | hx | hx)
        · exact Or.inl (Or.inl hx)
        · exact Or.inl (Or.inr hx)
        · exact Or.inr hx

/-- Number of service ids of the configuration not yet visited: the measure
that shrinks as the traversal marks ids. -/
def presentCount (cfg : CustomServicesJson) (visited : List String) : Nat :=
  (allServiceIds cfg).countP (fun x => !decide (x ∈ visited))

/-- Growing the visited set can only shrink the measure. -/
theorem presentCount_le (cfg : CustomServicesJson) {v w : List String}
    (h : ∀ x, x ∈ v → x ∈ w) : presentCount cfg w ≤ presentCount cfg v := by
  apply List.countP_mono_left
  intro a _ hp
  simp only [Bool.not_eq_true', decide_eq_false_iff_not] at hp ⊢
  exact fun hv => hp (h a hv)

/-- Visiting a present, not yet visited id strictly shrinks the measure. -/
theorem countP_cons_lt {l : List String} {s : String} {v : List String}
    (hs : s ∈ l) (hv : s ∉ v) :
    l.countP (fun x => !decide (x ∈ s :: v)) < l.countP (fun x => !decide (x ∈ v)) := by
  induction l with
  | nil => cases hs
  | cons a t ih =>
    rw [List.countP_cons, List.countP_cons]
    by_cases ha : a = s
    · subst ha
      have h1 : (!decide (a ∈ a :: v)) = false := by simp
      have h2 : (!decide (a ∈ v)) = true := by simp [hv]
      rw [h1, h2]
      have hle : t.countP (fun x => !decide (x ∈ a :: v))
          ≤ t.countP (fun x => !decide (x ∈ v)) := by
        apply List.countP_mono_left
        intro b _ hp
        simp only [Bool.not_eq_true', decide_eq_false_iff_not, List.mem_cons] at hp ⊢
        exact fun hb => hp (Or.inr hb)
      simp only [Bool.false_eq_true, if_false, if_true]
      omega
    · have hs2 : s ∈ t := by
        cases List.mem_cons.mp hs with
        | inl hh => exact absurd hh.symm ha
        | inr hh => exact hh
      have hsame : decide (a ∈ s :: v) = decide (a ∈ v) := by
        simp only [List.mem_cons, decide_eq_decide]
        constructor
        · rintro (hh | hh)
          · exact absurd hh ha
          · exact hh
        · exact Or.inr
      rw [hsame]
      have := ih hs2
      omega

/-- The measure on a fresh visited set is bounded by the number of ids. -/
theorem presentCount_le_length (cfg : CustomServicesJson) (v : List String) :
    presentCount cfg v ≤ (allServiceIds cfg).length :=
  List.countP_le_length _

/-- A successful lookup means the key occurs among the keys. -/
theorem lookupId_some_mem_keys {α : Type} {l : List (String × α)} {id : String} {b : α}
    (h : lookupId l id = some b) : id ∈ l.map Prod.fst := by
  induction l with
  | nil => cases h
  | cons e rest ih =>
    by_cases he : e.1 = id
    · exact List.mem_cons.mpr (Or.inl he.symm)
    · simp only [lookupId, he, if_false] at h
      exact List.mem_cons.mpr (Or.inr (ih h))

/-- A service found by `findService` occurs in the id universe. -/
theorem findService_mem_allServiceIds {cfg : CustomServicesJson} {sid : String}
    {c : CustomServiceConfig} (h : findService cfg sid = some c) :
    sid ∈ allServiceIds cfg := by
  obtain ⟨cat, hcat, hl⟩ := List.exists_of_findSome?_eq_some h
  exact List.mem_flatMap.mpr ⟨cat, hcat, lookupId_some_mem_keys hl⟩

/-- The fold over a dependency list never forgets visited ids, provided each
recursive call does not. -/
theorem depsGoList_visited_sub (go : String → List String → List String × List String)
    (Hmono : ∀ d v, v ⊆ (go d v).2) :
    ∀ (deps : List String) (acc : List String × List String),
      acc.2 ⊆ (depsGoList go deps acc).2 := by
  intro deps
  induction deps with
  | nil => intro acc x hx; exact hx
  | cons d rest ih =>
    intro acc x hx
    rw [depsGoList_cons]
    exact ih _ (Hmono d acc.2 hx)

/-- The traversal never forgets visited ids. -/
theorem depsGo_visited_sub (cfg : CustomServicesJson) :
    ∀ (fuel : Nat) (sid : String) (visited : List String),
      visited ⊆ (depsGo cfg fuel sid visited).2 := by
  intro fuel
  induction fuel with
  | zero => intro sid visited x hx; exact hx
  | succ f ih =>
    intro sid visited
    by_cases hv : sid ∈ visited
    · simp only [depsGo, hv, if_true]
      exact fun x hx => hx
    · cases hfs : findService cfg sid with
      | none =>
        simp only [depsGo, hv, if_false, hfs]
        exact List.subset_cons_self _ _
      | some c =>
        have hkey : depsGo cfg (f + 1) sid visited
            = depsGoList (depsGo cfg f) c.dependencies (c.dependencies, sid :: visited) := by
          simp [depsGo, hv, hfs]
        rw [hkey]
        intro x hx
        exact depsGoList_visited_sub (depsGo cfg f) (fun d v => ih d v) c.dependencies
          (c.dependencies, sid :: visited) (List.mem_cons_of_mem _ hx)

/-- Invariant of the fold over a dependency list: it preserves the visited
superset, grows the accumulated list monotonically, keeps the accumulated
list inside the visited set once the pending dependencies are exhausted, and
maintains that every id visited during this run has all of its direct
dependencies recorded in the accumulated list. -/
theorem depsGoList_invariant (cfg : CustomServicesJson)
    (go : String → List String → List String × List String)
    (Hmono : ∀ d v, v ⊆ (go d v).2)
    (base visited : List String)
    (Hgo : ∀ d v, base ⊆ v →
        d ∈ (go d v).2 ∧
        (∀ x, x ∈ (go d v).1 → x ∈ (go d v).2) ∧
        (∀ u c, u ∈ (go d v).2 → u ∉ v → findService cfg u = some c →
          ∀ t, t ∈ c.dependencies → t ∈ (go d v).1)) :
    ∀ (deps : List String) (acc : List String × List String),
      base ⊆ acc.2 →
      (∀ x, x ∈ acc.1 → x ∈ acc.2 ∨ x ∈ deps) →
      (∀ u c, u ∈ acc.2 → u ∉ visited → findService cfg u = some c →
        ∀ t, t ∈ c.dependencies → t ∈ acc.1) →
      base ⊆ (depsGoList go deps acc).2 ∧
      (∀ x, x ∈ acc.1 → x ∈ (depsGoList go deps acc).1) ∧
      (∀ x, x ∈ (depsGoList go deps acc).1 → x ∈ (depsGoList go deps acc).2) ∧
      (∀ u c, u ∈ (depsGoList go deps acc).2 → u ∉ visited →
        findService cfg u = some c → ∀ t, t ∈ c.dependencies →
          t ∈ (depsGoList go deps acc).1) := by
  intro deps
  induction deps with
  | nil =>
    intro acc hbase hpend hinv
    rw [depsGoList_nil]
    refine ⟨hbase, fun x hx => hx, ?_, hinv⟩
    intro x hx
    cases hpend x hx with
    | inl h => exact h
    | inr h => cases h
  | cons d rest ih =>
    intro acc hbase hpend hinv
    rw [depsGoList_cons]
    have hbacc : base ⊆ (go d acc.2).2 := fun x hx => Hmono d acc.2 (hbase hx)
    obtain ⟨hdmem, hrsub, hrinv⟩ := Hgo d acc.2 hbase
    have hnewbase : base ⊆ (mergePush acc.1 (go d acc.2).1, (go d acc.2).2).2 := hbacc
    have hnewpend : ∀ x, x ∈ mergePush acc.1 (go d acc.2).1 →
        x ∈ (go d acc.2).2 ∨ x ∈ rest := by
      intro x hx
      cases mem_mergePush.mp hx with
      | inl hx1 =>
        cases hpend x hx1 with
        | inl h2 => exact Or.inl (Hmono d acc.2 h2)
        | inr h2 =>
          cases List.mem_cons.mp h2 with
          | inl h3 => exact Or.inl (h3 ▸ hdmem)
          | inr h3 => exact Or.inr h3
      | inr hx1 => exact Or.inl (hrsub x hx1)
    have hnewinv : ∀ u c, u ∈ (go d acc.2).2 → u ∉ visited →
        findService cfg u = some c → ∀ t, t ∈ c.dependencies →
          t ∈ mergePush acc.1 (go d acc.2).1 := by
      intro u c hu hnv hfu t ht
      by_cases hacc : u ∈ acc.2
      · exact mem_mergePush.mpr (Or.inl (hinv u c hacc hnv hfu t ht))
      · exact mem_mergePush.mpr (Or.inr (hrinv u c hu hacc hfu t ht))
    obtain ⟨r1, r2, r3, r4⟩ := ih (mergePush acc.1 (go d acc.2).1, (go d acc.2).2)
      hnewbase hnewpend hnewinv
    refine ⟨r1, ?_, r3, r4⟩
    intro x hx
    exact r2 x (mem_mergePush.mpr (Or.inl hx))

/-- Main invariant of the traversal, under sufficient fuel: the start id gets
visited, the result list stays inside the visited set, and every id visited
during the run has all of its direct dependencies in the result list. -/
theorem depsGo_complete_aux (cfg : CustomServicesJson) :
    ∀ (fuel : Nat) (visited : List String) (sid : String),
      presentCount cfg visited < fuel →
      sid ∈ (depsGo cfg fuel sid visited).2 ∧
      (∀ x, x ∈ (depsGo cfg fuel sid visited).1 → x ∈ (depsGo cfg fuel sid visited).2) ∧
      (∀ u c, u ∈ (depsGo cfg fuel sid visited).2 → u ∉ visited →
        findService cfg u = some c → ∀ t, t ∈ c.dependencies →
          t ∈ (depsGo cfg fuel sid visited).1) := by
  intro fuel
  induction fuel with
  | zero => intro visited sid h; exact absurd h (Nat.not_lt_zero _)
  | succ f ih =>
    intro visited sid hf
    by_cases hv : sid ∈ visited
    · have hkey : depsGo cfg (f + 1) sid visited = ([], visited) := by
        simp [depsGo, hv]
      rw [hkey]
      exact ⟨hv, fun x hx => absurd hx (List.not_mem_nil x),
        fun u c hu hnu => absurd hu hnu⟩
    · cases hfs : findService cfg sid with
      | none =>
        have hkey : depsGo cfg (f + 1) sid visited = ([], sid :: visited) := by
          simp [depsGo, hv, hfs]
        rw [hkey]
        refine ⟨List.mem_cons_self _ _, fun x hx => absurd hx (List.not_mem_nil x), ?_⟩
        intro u c hu hnu hfu t ht
        cases List.mem_cons.mp hu with
        | inl h2 => rw [h2] at hfu; rw [hfu] at hfs; cases hfs
        | inr h2 => exact absurd h2 hnu
      | some c =>
        have hkey : depsGo cfg (f + 1) sid visited
            = depsGoList (depsGo cfg f) c.dependencies (c.dependencies, sid :: visited) := by
          simp [depsGo, hv, hfs]
        rw [hkey]
        have hsidmem : sid ∈ allServiceIds cfg := findService_mem_allServiceIds hfs
        have hpc1 : presentCount cfg (sid :: visited) < presentCount cfg visited :=
          countP_cons_lt hsidmem hv
        have hcall : ∀ v : List String, (sid :: visited) ⊆ v → presentCount cfg v < f := by
          intro v hbv
          have h1 : presentCount cfg v ≤ presentCount cfg (sid :: visited) :=
            presentCount_le cfg (fun x hx => hbv hx)
          omega
        have Hgo : ∀ d v, (sid :: visited) ⊆ v →
            d ∈ (depsGo cfg f d v).2 ∧
            (∀ x, x ∈ (depsGo cfg f d v).1 → x ∈ (depsGo cfg f d v).2) ∧
            (∀ u cc, u ∈ (depsGo cfg f d v).2 → u ∉ v → findService cfg u = some cc →
              ∀ t, t ∈ cc.dependencies → t ∈ (depsGo cfg f d v).1) := by
          intro d v hbv
          exact ih v d (hcall v hbv)
        have Hmono : ∀ d v, v ⊆ (depsGo cfg f d v).2 :=
          fun d v => depsGo_visited_sub cfg f d v
        have hinit : ∀ u cc, u ∈ sid :: visited → u ∉ visited →
            findService cfg u = some cc → ∀ t, t ∈ cc.dependencies →
              t ∈ c.dependencies := by
          intro u cc hu hnu hfu t ht
          cases List.mem_cons.mp hu with
          | inl h2 =>
            rw [h2] at hfu
            rw [hfu] at hfs
            cases hfs
            exact ht
          | inr h2 => exact absurd h2 hnu
        obtain ⟨r1, r2, r3, r4⟩ := depsGoList_invariant cfg (depsGo cfg f) Hmono
          (sid :: visited) visited Hgo c.dependencies (c.dependencies, sid :: visited)
          (fun x hx => hx) (fun x hx => Or.inr hx) hinit
        exact ⟨r1 (List.mem_cons_self _ _), r3, r4⟩

/-- Completeness of the visited-set traversal: every transitive dependency
of the start service appears in the computed dependency list. -/
theorem getServiceDependencies_complete {cfg : CustomServicesJson} {S t : String}
    (h : DependsOn cfg S t) : t ∈ getServiceDependencies cfg S := by
  have hf : presentCount cfg [] < (allServiceIds cfg).length + 1 :=
    Nat.lt_succ_of_le (presentCount_le_length cfg [])
  obtain ⟨h1, h2, h3⟩ :=
    depsGo_complete_aux cfg ((allServiceIds cfg).length + 1) [] S hf
  show t ∈ (depsGo cfg ((allServiceIds cfg).length + 1) S []).1
  induction h with
  | direct hu ht => exact h3 _ _ h1 (List.not_mem_nil _) hu _ ht
  | step hSv hvfs ht ih => exact h3 _ _ (h2 _ ih) (List.not_mem_nil _) hvfs _ ht

/-! ### Claim theorems -/

/-- Mapping an association list entry-wise, keeping keys, maps lookups. -/
theorem lookupId_map_entries {α β : Type} (F : String → α → β)
    (l : List (String × α)) (k : String) :
    lookupId (l.map (fun e => (e.1, F e.1 e.2))) k = (lookupId l k).map (F k) := by
  induction l with
  | nil => rfl
  | cons e rest ih =>
    by_cases h : e.1 = k
    · simp [lookupId, h]
    · simp [lookupId, h, ih]

/-- One category of the merge: looking up a service id yields the catalog
entry with `enabled` replaced by the stored flag (default false). -/
theorem merge_lookup_inner (state : StoredServiceState) (catId : String)
    (svcs : List (String × ServiceDefEntry)) (svcId : String) :
    lookupId (svcs.map (fun svc =>
      (svc.1,
        ({ enabled := ((lookupId state catId).bind (fun l => lookupId l svc.1)).getD false
           required := svc.2.required
           description := svc.2.description
           category := svc.2.category
           dependencies := svc.2.dependencies
           profiles := svc.2.profiles
           pull_services := svc.2.pull_services } : CustomServiceConfig)))) svcId
      = (lookupId svcs svcId).map (fun d =>
          { enabled := ((lookupId state catId).bind (fun l => lookupId l svcId)).getD false
            required := d.required
            description := d.description
            category := d.category
            dependencies := d.dependencies
            profiles := d.profiles
            pull_services := d.pull_services }) := by
  induction svcs with
  | nil => rfl
  | cons e rest ih =>
    by_cases h : e.1 = svcId
    · simp [lookupId, h]
    · simp [lookupId, h, ih]

/-- The double lookup of a merged configuration: the catalog entry with
`enabled` taken from the stored state (default false), whatever `required`
says. -/
theorem merge_lookup (defs : ServiceDefinitions) (state : StoredServiceState)
    (catId svcId : String) :
    (lookupId (mergeServiceDefinitionsWithState defs state).services catId).bind
        (fun l => lookupId l svcId)
      = ((lookupId defs catId).bind (fun l => lookupId l svcId)).map (fun d =>
          { enabled := ((lookupId state catId).bind (fun l => lookupId l svcId)).getD false
            required := d.required
            description := d.description
            category := d.category
            dependencies := d.dependencies
            profiles := d.profiles
            pull_services := d.pull_services }) := by
  induction defs with
  | nil => rfl
  | cons cat rest ih =>
    have hstep : (mergeServiceDefinitionsWithState (cat :: rest) state).services
        = (cat.1, cat.2.map (fun svc =>
            (svc.1,
              ({ enabled :=
                   ((lookupId state cat.1).bind (fun l => lookupId l svc.1)).getD false
                 required := svc.2.required
                 description := svc.2.description
                 category := svc.2.category
                 dependencies := svc.2.dependencies
                 profiles := svc.2.profiles
                 pull_services := svc.2.pull_services } : CustomServiceConfig))))
          :: (mergeServiceDefinitionsWithState rest state).services := rfl
    rw [hstep]
    by_cases h : cat.1 = catId
    · subst h
      simp [lookupId, merge_lookup_inner]
    · simp [lookupId, h, ih]

/-- C1 (corrected): the source does not enforce required-ness. The merged
configuration's `enabled` flag equals the stored flag defaulted to false even
for a `required=true` catalog entry, and toggling a required service to
disabled is not rejected — the service ends up disabled like any other. -/
theorem c1_required_not_enforced :
    (∀ (defs : ServiceDefinitions) (state : StoredServiceState) (catId svcId : String)
        (d : ServiceDefEntry),
      (lookupId defs catId).bind (fun l => lookupId l svcId) = some d →
      d.required = true →
      ((lookupId (mergeServiceDefinitionsWithState defs state).services catId).bind
          (fun l => lookupId l svcId)).map (fun c => c.enabled)
        = some (((lookupId state catId).bind (fun l => lookupId l svcId)).getD false)) ∧
    (∀ (cfg : CustomServicesJson) (S : String) (c : CustomServiceConfig),
      findService cfg S = some c → c.required = true →
      getServiceEnabled (handleServiceToggle cfg S false) S = false) := by
  constructor
  · intro defs state catId svcId d hd _
    rw [merge_lookup, hd]
    rfl
  · intro cfg S c _ _
    rw [toggle_off_enabled]
    simp

/-- C1 counterexample: with a catalog whose only service is required, an
empty preference store merges to a configuration where that service is
disabled, and toggling the (enabled, required) service to disabled goes
through, changing the configuration — the claimed rejection never happens. -/
theorem c1_counterexample :
    getServiceEnabled (mergeServiceDefinitionsWithState defsRequired []) "caddy" = false ∧
    ((findService (mergeServiceDefinitionsWithState defsRequired []) "caddy").map
        (fun c => c.required)).getD false = true ∧
    getServiceEnabled cfgRequired "caddy" = true ∧
    ((findService cfgRequired "caddy").map (fun c => c.required)).getD false = true ∧
    handleServiceToggle cfgRequired "caddy" false ≠ cfgRequired ∧
    getServiceEnabled (handleServiceToggle cfgRequired "caddy" false) "caddy" = false := by
  refine ⟨rfl, rfl, rfl, rfl, by decide, rfl⟩

/-- C1 witness: the amended statement applied at the required-only catalog
and at the required-and-enabled configuration. -/
theorem c1_witness :
    ((lookupId defsRequired "core").bind (fun l => lookupId l "caddy")
        = some { required := true, description := "Reverse proxy with automatic HTTPS",
                 category := "infrastructure", dependencies := [] } ∧
      ((lookupId (mergeServiceDefinitionsWithState defsRequired []).services "core").bind
          (fun l => lookupId l "caddy")).map (fun c => c.enabled)
        = some (((lookupId ([] : StoredServiceState) "core").bind
            (fun l => lookupId l "caddy")).getD false)) ∧
    (findService cfgRequired "caddy"
        = some { enabled := true, required := true,
                 description := "Reverse proxy with automatic HTTPS",
                 category := "infrastructure", dependencies := [] } ∧
      getServiceEnabled (handleServiceToggle cfgRequired "caddy" false) "caddy" = false) := by
  refine ⟨⟨by decide, ?_⟩, ⟨by decide, ?_⟩⟩
  · exact c1_required_not_enforced.1 defsRequired [] "core" "caddy"
      ⟨true, "Reverse proxy with automatic HTTPS", "infrastructure", [], none, none⟩
      (by decide) (by decide)
  · exact c1_required_not_enforced.2 cfgRequired "caddy"
      ⟨true, true, "Reverse proxy with automatic HTTPS", "infrastructure", [], none, none⟩
      (by decide) (by decide)

/-- C2 (corrected): toggling a service to disabled disables that service and
exactly its direct dependents — the cascade does not follow reverse edges
transitively, so in the enabled chain A depends on B depends on C, disabling
C leaves A enabled. -/
theorem c2_disable_cascade_direct_only :
    (∀ (cfg : CustomServicesJson) (S t : String),
      getServiceEnabled (handleServiceToggle cfg S false) t
        = if t = S ∨ t ∈ getServicesDependingOn cfg S then false
          else getServiceEnabled cfg t) ∧
    enabledIds (handleServiceToggle cfgChainOn "C" false) = ["A"] :=
  ⟨toggle_off_enabled, by decide⟩

/-- C2 counterexample: in the all-enabled chain where A depends on B and B
depends on C (and C is not required), disabling C disables B but leaves A
enabled — the claimed transitive cascade to the empty enabled set does not
happen. -/
theorem c2_counterexample :
    getServiceEnabled cfgChainOn "A" = true ∧
    getServiceEnabled cfgChainOn "B" = true ∧
    getServiceEnabled cfgChainOn "C" = true ∧
    ((findService cfgChainOn "C").map (fun c => c.required)).getD true = false ∧
    getServiceEnabled (handleServiceToggle cfgChainOn "C" false) "B" = false ∧
    getServiceEnabled (handleServiceToggle cfgChainOn "C" false) "A" = true := by
  refine ⟨rfl, rfl, rfl, rfl, rfl, rfl⟩

/-- C3 (confirmed): toggling a service to enabled enables it and every
transitive dependency of it that exists in the configuration, and in the
disabled chain where A depends on B and B depends on C, enabling A yields
exactly the enabled set A, B, C. (A dependency id with no entry in the
configuration cannot carry an enabled flag, whence the existence premise.) -/
theorem c3_enable_forward_closure :
    (∀ (cfg : CustomServicesJson) (S : String),
      (findService cfg S).isSome = true →
      getServiceEnabled (handleServiceToggle cfg S true) S = true) ∧
    (∀ (cfg : CustomServicesJson) (S t : String),
      DependsOn cfg S t → (findService cfg t).isSome = true →
      getServiceEnabled (handleServiceToggle cfg S true) t = true) ∧
    enabledIds (handleServiceToggle cfgChain "A" true) = ["A", "B", "C"] := by
  refine ⟨?_, ?_, by decide⟩
  · intro cfg S hS
    rw [toggle_on_enabled]
    simp [hS]
  · intro cfg S t hdep ht
    have hmem : t ∈ getServiceDependencies cfg S := getServiceDependencies_complete hdep
    rw [toggle_on_enabled]
    simp [hmem, ht]

/-- C3 witness: the forward closure applied on the concrete chain, enabling
A and the transitive dependency C. -/
theorem c3_witness :
    ((findService cfgChain "A").isSome = true ∧
      getServiceEnabled (handleServiceToggle cfgChain "A" true) "A" = true) ∧
    (DependsOn cfgChain "A" "C" ∧ (findService cfgChain "C").isSome = true ∧
      getServiceEnabled (handleServiceToggle cfgChain "A" true) "C" = true) := by
  have hAB : DependsOn cfgChain "A" "B" :=
    DependsOn.direct
      (c := ⟨false, false, "svc A", "ai", ["B"], none, none⟩) (by decide) (by decide)
  have hAC : DependsOn cfgChain "A" "C" :=
    DependsOn.step hAB
      (c := ⟨false, false, "svc B", "ai", ["C"], none, none⟩) (by decide) (by decide)
  exact ⟨⟨by decide, c3_enable_forward_closure.1 cfgChain "A" (by decide)⟩,
    ⟨hAC, by decide, c3_enable_forward_closure.2.1 cfgChain "A" "C" hAC (by decide)⟩⟩

/-- C4 (corrected): enabling a service and then immediately disabling it does
not restore the pre-enable state. The round trip disables the service and its
direct dependents, but every computed transitive dependency that exists stays
enabled — even when no still-enabled service depends on it; only services
outside both sets keep their original flag. -/
theorem c4_roundtrip_keeps_dependencies :
    ∀ (cfg : CustomServicesJson) (S t : String),
      getServiceEnabled (handleServiceToggle (handleServiceToggle cfg S true) S false) t
        = if t = S ∨ t ∈ getServicesDependingOn cfg S then false
          else if t ∈ getServiceDependencies cfg S then (findService cfg t).isSome
          else getServiceEnabled cfg t := by
  intro cfg S t
  rw [toggle_off_enabled, getServicesDependingOn_toggle_on]
  by_cases h1 : t = S ∨ t ∈ getServicesDependingOn cfg S
  · simp [h1]
  · have ht : t ≠ S := fun hh => h1 (Or.inl hh)
    rw [if_neg h1, if_neg h1, toggle_on_enabled]
    by_cases h2 : t ∈ getServiceDependencies cfg S
    · simp [ht, h2]
    · simp [ht, h2]

/-- C4 counterexample: with A depending on B and both disabled, enabling A
and then disabling A leaves B enabled although B was disabled before and the
only service depending on B (namely A) is disabled afterwards — the enabled
set does not return to its pre-enable state and the shared-dependency
exception does not apply. -/
theorem c4_counterexample :
    getServiceEnabled cfgPair "B" = false ∧
    getServiceEnabled
      (handleServiceToggle (handleServiceToggle cfgPair "A" true) "A" false) "B" = true ∧
    getServiceEnabled
      (handleServiceToggle (handleServiceToggle cfgPair "A" true) "A" false) "A" = false ∧
    getServicesDependingOn cfgPair "B" = ["A"] := by
  refine ⟨rfl, rfl, rfl, rfl⟩

/-- Unfolding of `findService` on a nonempty category list. -/
theorem findService_cons (x : String × List (String × CustomServiceConfig))
    (xs : List (String × List (String × CustomServiceConfig))) (t : String) :
    findService ⟨x :: xs⟩ t
      = match lookupId x.2 t with
        | some c => some c
        | none => findService ⟨xs⟩ t := by
  cases hlk : lookupId x.2 t with
  | some c => simp [findService, List.findSome?_cons, hlk]
  | none => simp [findService, List.findSome?_cons, hlk]

/-- Unfolding of `firstCategoryOf` on a nonempty category list. -/
theorem firstCategoryOf_cons (x : String × List (String × CustomServiceConfig))
    (xs : List (String × List (String × CustomServiceConfig))) (t : String) :
    firstCategoryOf ⟨x :: xs⟩ t
      = if (lookupId x.2 t).isSome then some x.1 else firstCategoryOf ⟨xs⟩ t := by
  cases hlk : lookupId x.2 t with
  | some c => simp [firstCategoryOf, List.findSome?_cons, hlk]
  | none => simp [firstCategoryOf, List.findSome?_cons, hlk]

/-- Unfolding of the category bulk toggle on a nonempty category list. -/
theorem selectAllCategory_cons (x : String × List (String × CustomServiceConfig))
    (xs : List (String × List (String × CustomServiceConfig))) (cat : String) (v : Bool) :
    handleSelectAllCategory ⟨x :: xs⟩ cat v
      = ⟨(if x.1 = cat then
            (x.1, x.2.map (fun svc => (svc.1, setEnabled svc.2 v)))
          else x) :: (handleSelectAllCategory ⟨xs⟩ cat v).services⟩ := rfl

/-- Lookup after a category bulk toggle: the flag is replaced exactly when
the id is first found in the toggled category. -/
theorem findService_selectAllCategory
    (l : List (String × List (String × CustomServiceConfig)))
    (cat : String) (v : Bool) (t : String) :
    findService (handleSelectAllCategory ⟨l⟩ cat v) t
      = if firstCategoryOf ⟨l⟩ t = some cat
        then (findService ⟨l⟩ t).map (fun c => setEnabled c v)
        else findService ⟨l⟩ t := by
  induction l with
  | nil => simp [findService, firstCategoryOf, handleSelectAllCategory]
  | cons hd tl ih =>
    rw [selectAllCategory_cons, findService_cons, firstCategoryOf_cons, findService_cons]
    by_cases hhd : hd.1 = cat
    · rw [if_pos hhd]
      cases hlk : lookupId hd.2 t with
      | some c =>
        have hmap : lookupId (hd.2.map (fun svc =>
            (svc.1, setEnabled svc.2 v))) t = some (setEnabled c v) := by
          rw [lookupId_map_entries
            (fun (_ : String) (c0 : CustomServiceConfig) => setEnabled c0 v) hd.2 t,
            hlk]
          rfl
        rw [hmap]
        simp [hhd]
      | none =>
        have hmap : lookupId (hd.2.map (fun svc =>
            (svc.1, setEnabled svc.2 v))) t = none := by
          rw [lookupId_map_entries
            (fun (_ : String) (c0 : CustomServiceConfig) => setEnabled c0 v) hd.2 t,
            hlk]
          rfl
        rw [hmap]
        simpa using ih
    · rw [if_neg hhd]
      cases hlk : lookupId hd.2 t with
      | some c => simp [hhd]
      | none => simpa using ih

/-- Lookup after a global bulk toggle: every present service has its flag
replaced. -/
theorem findService_selectAllGlobal
    (l : List (String × List (String × CustomServiceConfig))) (v : Bool) (t : String) :
    findService (handleSelectAllGlobal ⟨l⟩ v) t
      = (findService ⟨l⟩ t).map (fun c => setEnabled c v) := by
  induction l with
  | nil => rfl
  | cons hd tl ih =>
    have hstep : handleSelectAllGlobal ⟨hd :: tl⟩ v
        = ⟨(hd.1, hd.2.map (fun svc => (svc.1, setEnabled svc.2 v)))
            :: (handleSelectAllGlobal ⟨tl⟩ v).services⟩ := rfl
    rw [hstep, findService_cons, findService_cons]
    cases hlk : lookupId hd.2 t with
    | some c =>
      have hmap : lookupId (hd.2.map (fun svc =>
          (svc.1, setEnabled svc.2 v))) t = some (setEnabled c v) := by
        rw [lookupId_map_entries
          (fun (_ : String) (c0 : CustomServiceConfig) => setEnabled c0 v) hd.2 t,
          hlk]
        rfl
      rw [hmap]
      rfl
    | none =>
      have hmap : lookupId (hd.2.map (fun svc =>
          (svc.1, setEnabled svc.2 v))) t = none := by
        rw [lookupId_map_entries
          (fun (_ : String) (c0 : CustomServiceConfig) => setEnabled c0 v) hd.2 t,
          hlk]
        rfl
      rw [hmap]
      simpa using ih

/-- C5 (corrected): the bulk toggles write the flag directly and run no
cascade at all — a category bulk toggle sets exactly the services first found
in that category, the global one sets every present service, and bulk toggles
on distinct categories commute; but bulk toggling is not equivalent to
repeated single-service toggles, which do cascade. -/
theorem c5_bulk_toggle_no_cascade :
    (∀ (cfg : CustomServicesJson) (category : String) (v : Bool) (t : String),
      getServiceEnabled (handleSelectAllCategory cfg category v) t
        = if firstCategoryOf cfg t = some category then ((findService cfg t).isSome && v)
          else getServiceEnabled cfg t) ∧
    (∀ (cfg : CustomServicesJson) (v : Bool) (t : String),
      getServiceEnabled (handleSelectAllGlobal cfg v) t
        = ((findService cfg t).isSome && v)) ∧
    (∀ (cfg : CustomServicesJson) (c1 c2 : String) (v1 v2 : Bool), c1 ≠ c2 →
      handleSelectAllCategory (handleSelectAllCategory cfg c1 v1) c2 v2
        = handleSelectAllCategory (handleSelectAllCategory cfg c2 v2) c1 v1) := by
  refine ⟨?_, ?_, ?_⟩
  · intro cfg category v t
    obtain ⟨l⟩ := cfg
    unfold getServiceEnabled
    rw [findService_selectAllCategory]
    by_cases h : firstCategoryOf ⟨l⟩ t = some category
    · rw [if_pos h, if_pos h]
      cases findService ⟨l⟩ t <;> simp [setEnabled]
    · rw [if_neg h, if_neg h]
  · intro cfg v t
    obtain ⟨l⟩ := cfg
    unfold getServiceEnabled
    rw [findService_selectAllGlobal]
    cases findService ⟨l⟩ t <;> simp [setEnabled]
  · intro cfg c1 c2 v1 v2 hne
    obtain ⟨l⟩ := cfg
    show CustomServicesJson.mk _ = CustomServicesJson.mk _
    apply congrArg
    show ((l.map _).map _) = ((l.map _).map _)
    rw [List.map_map, List.map_map]
    apply List.map_congr_left
    intro cat _
    by_cases h1 : cat.1 = c1
    · have h2 : cat.1 ≠ c2 := fun hh => hne (h1 ▸ hh)
      simp [Function.comp, h1, h2, hne, Ne.symm hne]
    · by_cases h2 : cat.1 = c2
      · simp [Function.comp, h1, h2, hne, Ne.symm hne]
      · simp [Function.comp, h1, h2]

/-- C5 counterexample: category `cat1` of the split configuration holds
exactly the service A, whose dependency B lives in `cat2`; the bulk enable of
`cat1` leaves B disabled while the corresponding single-service toggle of A
enables B — the two end states differ. -/
theorem c5_counterexample :
    (lookupId cfgSplit.services "cat1").map (fun svcs => svcs.map (fun svc => svc.1))
      = some ["A"] ∧
    getServiceEnabled (handleSelectAllCategory cfgSplit "cat1" true) "A" = true ∧
    getServiceEnabled (handleServiceToggle cfgSplit "A" true) "A" = true ∧
    getServiceEnabled (handleSelectAllCategory cfgSplit "cat1" true) "B" = false ∧
    getServiceEnabled (handleServiceToggle cfgSplit "A" true) "B" = true := by
  refine ⟨rfl, rfl, rfl, rfl, rfl⟩

/-- C5 witness: commutation of two distinct category bulk toggles on the
split configuration. -/
theorem c5_witness :
    ("cat1" : String) ≠ "cat2" ∧
    handleSelectAllCategory (handleSelectAllCategory cfgSplit "cat1" true) "cat2" true
      = handleSelectAllCategory (handleSelectAllCategory cfgSplit "cat2" true) "cat1" true :=
  ⟨by decide, c5_bulk_toggle_no_cascade.2.2 cfgSplit "cat1" "cat2" true true (by decide)⟩

/-- C6 (confirmed): for every enabled service, a declared (nonempty) profile
variant replaces the logical id in the effective startup list, a declared
(nonempty) pull variant is additionally appended, the service's own
contribution never carries its logical id when a variant (distinct from the
id) is declared, and variant-free services pass through unchanged; on the
concrete scenario, enabling D with profile cpu yields D-cpu and D-pull-cpu
and not D. (JS truthiness makes an empty-string variant fall back to the
logical id, whence the nonemptiness premises.) -/
theorem c6_profile_substitution :
    (∀ (cfg : CustomServicesJson) (profile catName : String)
        (svcs : List (String × CustomServiceConfig)) (id : String)
        (c : CustomServiceConfig) (v : String),
      (catName, svcs) ∈ cfg.services → (id, c) ∈ svcs → c.enabled = true →
      profileVariant c profile = some v → v ≠ "" →
      v ∈ getEnabledServices cfg profile) ∧
    (∀ (cfg : CustomServicesJson) (profile catName : String)
        (svcs : List (String × CustomServiceConfig)) (id : String)
        (c : CustomServiceConfig) (p : String),
      (catName, svcs) ∈ cfg.services → (id, c) ∈ svcs → c.enabled = true →
      pullVariant c profile = some p → p ≠ "" →
      p ∈ getEnabledServices cfg profile) ∧
    (∀ (profile id : String) (c : CustomServiceConfig) (v : String),
      c.enabled = true → profileVariant c profile = some v → v ≠ "" → v ≠ id →
      (∀ p, pullVariant c profile = some p → p ≠ id) →
      id ∉ serviceStartIds profile id c) ∧
    (∀ (cfg : CustomServicesJson) (profile catName : String)
        (svcs : List (String × CustomServiceConfig)) (id : String)
        (c : CustomServiceConfig),
      (catName, svcs) ∈ cfg.services → (id, c) ∈ svcs → c.enabled = true →
      profileVariant c profile = none →
      id ∈ getEnabledServices cfg profile) ∧
    (getEnabledServices cfgVariants "cpu" = ["D-cpu", "D-pull-cpu", "E"] ∧
      "D" ∉ getEnabledServices cfgVariants "cpu") := by
  refine ⟨?_, ?_, ?_, ?_, by decide, by decide⟩
  · intro cfg profile catName svcs id c v hcat hsvc hen hv hne
    refine List.mem_flatMap.mpr ⟨(catName, svcs), hcat,
      List.mem_flatMap.mpr ⟨(id, c), hsvc, ?_⟩⟩
    simp [hen, serviceStartIds, hv, hne]
  · intro cfg profile catName svcs id c p hcat hsvc hen hp hpne
    refine List.mem_flatMap.mpr ⟨(catName, svcs), hcat,
      List.mem_flatMap.mpr ⟨(id, c), hsvc, ?_⟩⟩
    simp only [hen, if_true]
    cases hv : profileVariant c profile with
    | some v => by_cases hve : v = "" <;> simp [serviceStartIds, hv, hp, hpne, hve]
    | none => simp [serviceStartIds, hv, hp, hpne]
  · intro profile id c v _ hv hne hvne hp hmem
    cases hpv : pullVariant c profile with
    | none =>
      simp [serviceStartIds, hv, hne, hpv] at hmem
      exact hvne hmem.symm
    | some p =>
      have hpne : p ≠ id := hp p hpv
      by_cases hpe : p = ""
      · simp [serviceStartIds, hv, hne, hpv, hpe] at hmem
        exact hvne hmem.symm
      · simp [serviceStartIds, hv, hne, hpv, hpe] at hmem
        cases hmem with
        | inl h2 => exact hvne h2.symm
        | inr h2 => exact hpne h2.symm
  · intro cfg profile catName svcs id c hcat hsvc hen hv
    refine List.mem_flatMap.mpr ⟨(catName, svcs), hcat,
      List.mem_flatMap.mpr ⟨(id, c), hsvc, ?_⟩⟩
    simp [hen, serviceStartIds, hv]

/-- C6 witness: the substitution statements applied on the concrete variant
configuration, profile cpu. -/
theorem c6_witness :
    "D-cpu" ∈ getEnabledServices cfgVariants "cpu" ∧
    "D-pull-cpu" ∈ getEnabledServices cfgVariants "cpu" ∧
    "D" ∉ serviceStartIds "cpu" "D" svcD ∧
    "E" ∈ getEnabledServices cfgVariants "cpu" := by
  refine ⟨?_, ?_, ?_, ?_⟩
  · exact c6_profile_substitution.1 cfgVariants "cpu" "llm" [("D", svcD), ("E", svcE)]
      "D" svcD "D-cpu" (by decide) (by decide) rfl rfl (by decide)
  · exact c6_profile_substitution.2.1 cfgVariants "cpu" "llm" [("D", svcD), ("E", svcE)]
      "D" svcD "D-pull-cpu" (by decide) (by decide) rfl rfl (by decide)
  · refine c6_profile_substitution.2.2.1 "cpu" "D" svcD "D-cpu" rfl rfl
      (by decide) (by decide) ?_
    intro p hp
    have h2 : some ("D-pull-cpu" : String) = some p :=
      (rfl : pullVariant svcD "cpu" = some "D-pull-cpu").symm.trans hp
    injection h2 with h3
    rw [← h3]
    decide
  · exact c6_profile_substitution.2.2.2.1 cfgVariants "cpu" "llm"
      [("D", svcD), ("E", svcE)] "E" svcE (by decide) (by decide) rfl rfl

/-- Unfolding of the resolver loop on the empty list. -/
theorem resolveList_nil
    (go : String → List String × List String → List String × List String)
    (st : List String × List String) : resolveList go [] st = st := rfl

/-- The resolver loop preserves any property each step preserves. -/
theorem resolveList_pres {P : List String × List String → Prop}
    (go : String → List String × List String → List String × List String)
    (Hgo : ∀ d st, P st → P (go d st)) :
    ∀ (ds : List String) (st : List String × List String), P st → P (resolveList go ds st) := by
  intro ds
  induction ds with
  | nil => intro st h; exact h
  | cons d rest ih => intro st h; exact ih (go d st) (Hgo d st h)

/-- Soundness of the recursive resolver: it only ever adds ids that exist in
the configuration with their enabled flag set. -/
theorem resolveGo_sound (cfg : CustomServicesJson) :
    ∀ (fuel : Nat) (sid : String) (st : List String × List String),
      (∀ x ∈ st.1, ∃ c, findService cfg x = some c ∧ c.enabled = true) →
      ∀ x ∈ (resolveGo cfg fuel sid st).1,
        ∃ c, findService cfg x = some c ∧ c.enabled = true := by
  intro fuel
  induction fuel with
  | zero => intro sid st h; exact h
  | succ f ih =>
    intro sid st h
    by_cases hv : sid ∈ st.2
    · have hkey : resolveGo cfg (f + 1) sid st = st := by simp [resolveGo, hv]
      rw [hkey]; exact h
    · cases hfs : findService cfg sid with
      | none =>
        have hkey : resolveGo cfg (f + 1) sid st = (st.1, sid :: st.2) := by
          simp [resolveGo, hv, hfs]
        rw [hkey]; exact h
      | some c =>
        have hst1 : ∀ x ∈ (resolveList (resolveGo cfg f) c.dependencies
            (st.1, sid :: st.2)).1, ∃ cc, findService cfg x = some cc ∧ cc.enabled = true :=
          resolveList_pres (resolveGo cfg f) (fun d st2 h2 => ih d st2 h2)
            c.dependencies (st.1, sid :: st.2) h
        by_cases hen : c.enabled
        · have hkey : resolveGo cfg (f + 1) sid st
              = (if sid ∈ (resolveList (resolveGo cfg f) c.dependencies
                    (st.1, sid :: st.2)).1
                 then (resolveList (resolveGo cfg f) c.dependencies (st.1, sid :: st.2)).1
                 else (resolveList (resolveGo cfg f) c.dependencies
                    (st.1, sid :: st.2)).1 ++ [sid],
                 (resolveList (resolveGo cfg f) c.dependencies (st.1, sid :: st.2)).2) := by
            simp [resolveGo, hv, hfs, hen]
          rw [hkey]
          by_cases hmem : sid ∈ (resolveList (resolveGo cfg f) c.dependencies
              (st.1, sid :: st.2)).1
          · simp only [hmem, if_true]
            exact hst1
          · simp only [hmem, if_false]
            intro x hx
            cases List.mem_append.mp hx with
            | inl h2 => exact hst1 x h2
            | inr h2 =>
              have h3 : x = sid := List.mem_singleton.mp h2
              rw [h3]
              exact ⟨c, hfs, hen⟩
        · have hen2 : c.enabled = false := Bool.eq_false_iff.mpr hen
          have hkey : resolveGo cfg (f + 1) sid st
              = resolveList (resolveGo cfg f) c.dependencies (st.1, sid :: st.2) := by
            simp [resolveGo, hv, hfs, hen2]
          rw [hkey]
          exact hst1

/-- C7 (confirmed): every id returned by resolveDependencies exists in the
configuration with its enabled flag set; a requested id that is absent —
such as a profile-variant concrete id, which is never a key of the
configuration — or a disabled dependency is silently dropped, with no error
reported. Concretely, requesting the variant id D-cpu yields nothing, while
requesting the logical ids D and E yields them. -/
theorem c7_resolve_dependencies_sound :
    (∀ (cfg : CustomServicesJson) (req : List String) (t : String),
      t ∈ resolveDependencies cfg req →
      ∃ c, findService cfg t = some c ∧ c.enabled = true) ∧
    (∀ (cfg : CustomServicesJson) (req : List String) (t : String),
      findService cfg t = none → t ∉ resolveDependencies cfg req) ∧
    resolveDependencies cfgVariants ["D-cpu"] = [] ∧
    resolveDependencies cfgVariants ["D", "E"] = ["D", "E"] := by
  refine ⟨?_, ?_, by decide, by decide⟩
  · intro cfg req t ht
    exact resolveList_pres (resolveGo cfg ((allServiceIds cfg).length + 1))
      (fun d st2 h2 => resolveGo_sound cfg _ d st2 h2) req ([], [])
      (fun x hx => absurd hx (List.not_mem_nil x)) t ht
  · intro cfg req t hnone ht
    obtain ⟨c, hc, _⟩ := (by
      exact resolveList_pres (resolveGo cfg ((allServiceIds cfg).length + 1))
        (fun d st2 h2 => resolveGo_sound cfg _ d st2 h2) req ([], [])
        (fun x hx => absurd hx (List.not_mem_nil x)) t ht :
      ∃ c, findService cfg t = some c ∧ c.enabled = true)
    rw [hnone] at hc
    cases hc

/-- C7 witness: soundness applied at the membership of D in the resolved
list of the variant configuration. -/
theorem c7_witness :
    "D" ∈ resolveDependencies cfgVariants ["D", "E"] ∧
    (∃ c, findService cfgVariants "D" = some c ∧ c.enabled = true) ∧
    findService cfgVariants "D-cpu" = none ∧
    "D-cpu" ∉ resolveDependencies cfgVariants ["D-cpu"] := by
  refine ⟨by decide, ?_, by decide, ?_⟩
  · exact c7_resolve_dependencies_sound.1 cfgVariants ["D", "E"] "D" (by decide)
  · exact c7_resolve_dependencies_sound.2.1 cfgVariants ["D-cpu"] "D-cpu" (by decide)

/-- C8 (corrected): the computed requiredBy list contains exactly the ids of
the services whose dependency list includes the target — with no filter on
the dependent's enabled flag, so disabled dependents are listed too, as the
concrete configuration with the disabled dependent B shows. -/
theorem c8_required_by_ignores_enabled :
    (∀ (cfg : CustomServicesJson) (S t : String),
      t ∈ getServicesDependingOn cfg S ↔
        ∃ cat ∈ cfg.services, ∃ c : CustomServiceConfig,
          (t, c) ∈ cat.2 ∧ S ∈ c.dependencies) ∧
    getServicesDependingOn cfgReverse "A" = ["B"] ∧
    getServiceEnabled cfgReverse "B" = false := by
  refine ⟨?_, by decide, by decide⟩
  intro cfg S t
  constructor
  · intro ht
    obtain ⟨cat, hcat, ha⟩ := List.mem_flatMap.mp ht
    obtain ⟨a, ha2, hfa⟩ := List.mem_filterMap.mp ha
    by_cases hc : S ∈ a.2.dependencies
    · rw [if_pos hc] at hfa
      injection hfa with hfa1
      refine ⟨cat, hcat, a.2, ?_, hc⟩
      rw [← hfa1]
      exact (Prod.mk.eta (p := a)) ▸ ha2
    · rw [if_neg hc] at hfa
      cases hfa
  · rintro ⟨cat, hcat, c, hmem, hdep⟩
    exact List.mem_flatMap.mpr ⟨cat, hcat,
      List.mem_filterMap.mpr ⟨(t, c), hmem, by simp [hdep]⟩⟩

/-- C8 counterexample: B is disabled yet listed as depending on A, while the
claim demands that disabled dependents be excluded. -/
theorem c8_counterexample :
    getServiceEnabled cfgReverse "B" = false ∧
    "B" ∈ getServicesDependingOn cfgReverse "A" := by
  refine ⟨rfl, by decide⟩

/-- C9 (confirmed): over exact arithmetic, the CPU percentage is cpu delta
over system delta times the online CPU count times one hundred whenever the
system delta is positive, and zero whenever it is non-positive; the memory
percentage is used over limit times one hundred for a positive limit and
zero at limit zero. -/
theorem c9_stats_guarded :
    (∀ totalUsage precpuTotal systemUsage precpuSystem onlineCpus : ℚ,
      (systemUsage - precpuSystem > 0 →
        calcCpuPercent totalUsage precpuTotal systemUsage precpuSystem onlineCpus
          = (totalUsage - precpuTotal) / (systemUsage - precpuSystem) * onlineCpus * 100) ∧
      (systemUsage - precpuSystem ≤ 0 →
        calcCpuPercent totalUsage precpuTotal systemUsage precpuSystem onlineCpus = 0)) ∧
    (∀ usage limit : ℚ,
      (limit > 0 → calcMemoryPercent usage limit = usage / limit * 100) ∧
      (limit = 0 → calcMemoryPercent usage limit = 0)) := by
  constructor
  · intro a b c d e
    constructor
    · intro h
      simp [calcCpuPercent, h]
    · intro h
      simp [calcCpuPercent, not_lt.mpr h]
  · intro u l
    constructor
    · intro h
      simp [calcMemoryPercent, h]
    · intro h
      simp [calcMemoryPercent, h]

/-- C9 witness: both guards exercised at concrete rational samples. -/
theorem c9_witness :
    ((3 : ℚ) - 1 > 0 ∧ calcCpuPercent 5 1 3 1 2 = (5 - 1) / (3 - 1) * 2 * 100) ∧
    ((0 : ℚ) - 2 ≤ 0 ∧ calcCpuPercent 5 1 0 2 4 = 0) ∧
    ((4 : ℚ) > 0 ∧ calcMemoryPercent 1 4 = 1 / 4 * 100) ∧
    (((0 : ℚ) = 0) ∧ calcMemoryPercent 7 0 = 0) :=
  ⟨⟨by norm_num, (c9_stats_guarded.1 5 1 3 1 2).1 (by norm_num)⟩,
   ⟨by norm_num, (c9_stats_guarded.1 5 1 0 2 4).2 (by norm_num)⟩,
   ⟨by norm_num, (c9_stats_guarded.2 1 4).1 (by norm_num)⟩,
   ⟨rfl, (c9_stats_guarded.2 7 0).2 rfl⟩⟩

/-- Boolean prefix test as an existential over an append. -/
theorem isPrefixOf_iff_append (l1 l2 : List Char) :
    l1.isPrefixOf l2 = true ↔ ∃ r, l2 = l1 ++ r := by
  induction l1 generalizing l2 with
  | nil => simp [List.isPrefixOf]
  | cons a t ih =>
    cases l2 with
    | nil => simp [List.isPrefixOf]
    | cons b t2 =>
      simp only [List.isPrefixOf, Bool.and_eq_true, beq_iff_eq, ih]
      constructor
      · rintro ⟨hab, r, hr⟩
        exact ⟨r, by rw [hr, hab]; rfl⟩
      · rintro ⟨r, hr⟩
        rw [List.cons_append] at hr
        injection hr with h1 h2
        exact ⟨h1.symm, r, h2⟩

/-- The substring test as an existential over two appends. -/
theorem containsSub_iff (hay pat : List Char) :
    containsSub hay pat = true ↔ ∃ l r, hay = l ++ pat ++ r := by
  induction hay with
  | nil =>
    simp only [containsSub, List.isEmpty_iff]
    constructor
    · intro h
      exact ⟨[], [], by simp [h]⟩
    · rintro ⟨l, r, hr⟩
      have h2 := hr.symm
      simp only [List.append_eq_nil] at h2
      exact h2.1.2
  | cons a t ih =>
    simp only [containsSub, Bool.or_eq_true, isPrefixOf_iff_append, ih]
    constructor
    · rintro (⟨r, hr⟩ | ⟨l, r, hr⟩)
      · exact ⟨[], r, by simp [hr]⟩
      · exact ⟨a :: l, r, by simp [hr]⟩
    · rintro ⟨l, r, hr⟩
      cases l with
      | nil => exact Or.inl ⟨r, by simpa using hr⟩
      | cons x xs =>
        rw [List.cons_append, List.cons_append] at hr
        injection hr with h1 h2
        exact Or.inr ⟨xs, r, h2⟩

/-- C10 (confirmed): the inferred log level is error when the lowercased
message contains the substring error or fatal, otherwise warn when it
contains warn, otherwise debug when it contains debug, and info in all
remaining cases. -/
theorem c10_log_level_inference :
    ∀ m : String,
      (((∃ l r, lowerChars m = l ++ "error".data ++ r) ∨
          (∃ l r, lowerChars m = l ++ "fatal".data ++ r)) →
        detectLogLevel m = "error") ∧
      (¬((∃ l r, lowerChars m = l ++ "error".data ++ r) ∨
          (∃ l r, lowerChars m = l ++ "fatal".data ++ r)) →
        (∃ l r, lowerChars m = l ++ "warn".data ++ r) →
        detectLogLevel m = "warn") ∧
      (¬((∃ l r, lowerChars m = l ++ "error".data ++ r) ∨
          (∃ l r, lowerChars m = l ++ "fatal".data ++ r)) →
        ¬(∃ l r, lowerChars m = l ++ "warn".data ++ r) →
        (∃ l r, lowerChars m = l ++ "debug".data ++ r) →
        detectLogLevel m = "debug") ∧
      (¬((∃ l r, lowerChars m = l ++ "error".data ++ r) ∨
          (∃ l r, lowerChars m = l ++ "fatal".data ++ r)) →
        ¬(∃ l r, lowerChars m = l ++ "warn".data ++ r) →
        ¬(∃ l r, lowerChars m = l ++ "debug".data ++ r) →
        detectLogLevel m = "info") := by
  intro m
  refine ⟨?_, ?_, ?_, ?_⟩
  · intro h
    cases h with
    | inl h2 =>
      have he : containsSub (lowerChars m) "error".data = true := (containsSub_iff _ _).mpr h2
      simp [detectLogLevel, he]
    | inr h2 =>
      have hf : containsSub (lowerChars m) "fatal".data = true := (containsSub_iff _ _).mpr h2
      simp [detectLogLevel, hf]
  · intro h1 h2
    have he : containsSub (lowerChars m) "error".data = false :=
      Bool.eq_false_iff.mpr (fun hh => h1 (Or.inl ((containsSub_iff _ _).mp hh)))
    have hf : containsSub (lowerChars m) "fatal".data = false :=
      Bool.eq_false_iff.mpr (fun hh => h1 (Or.inr ((containsSub_iff _ _).mp hh)))
    have hw : containsSub (lowerChars m) "warn".data = true := (containsSub_iff _ _).mpr h2
    simp [detectLogLevel, he, hf, hw]
  · intro h1 h2 h3
    have he : containsSub (lowerChars m) "error".data = false :=
      Bool.eq_false_iff.mpr (fun hh => h1 (Or.inl ((containsSub_iff _ _).mp hh)))
    have hf : containsSub (lowerChars m) "fatal".data = false :=
      Bool.eq_false_iff.mpr (fun hh => h1 (Or.inr ((containsSub_iff _ _).mp hh)))
    have hw : containsSub (lowerChars m) "warn".data = false :=
      Bool.eq_false_iff.mpr (fun hh => h2 ((containsSub_iff _ _).mp hh))
    have hd : containsSub (lowerChars m) "debug".data = true := (containsSub_iff _ _).mpr h3
    simp [detectLogLevel, he, hf, hw, hd]
  · intro h1 h2 h3
    have he : containsSub (lowerChars m) "error".data = false :=
      Bool.eq_false_iff.mpr (fun hh => h1 (Or.inl ((containsSub_iff _ _).mp hh)))
    have hf : containsSub (lowerChars m) "fatal".data = false :=
      Bool.eq_false_iff.mpr (fun hh => h1 (Or.inr ((containsSub_iff _ _).mp hh)))
    have hw : containsSub (lowerChars m) "warn".data = false :=
      Bool.eq_false_iff.mpr (fun hh => h2 ((containsSub_iff _ _).mp hh))
    have hd : containsSub (lowerChars m) "debug".data = false :=
      Bool.eq_false_iff.mpr (fun hh => h3 ((containsSub_iff _ _).mp hh))
    simp [detectLogLevel, he, hf, hw, hd]

/-- A false substring test refutes the corresponding existential. -/
theorem not_containsSub {hay pat : List Char} (h : containsSub hay pat = false) :
    ¬∃ l r, hay = l ++ pat ++ r := by
  intro hh
  rw [(containsSub_iff hay pat).mpr hh] at h
  cases h

/-- C10 witness: the four branches exercised on concrete messages. -/
theorem c10_witness :
    detectLogLevel "FATAL: disk gone" = "error" ∧
    detectLogLevel "warning: low" = "warn" ∧
    detectLogLevel "DEBUG trace" = "debug" ∧
    detectLogLevel "all fine" = "info" := by
  refine ⟨?_, ?_, ?_, ?_⟩
  · exact (c10_log_level_inference "FATAL: disk gone").1
      (Or.inr ⟨[], ": disk gone".data, by decide⟩)
  · exact (c10_log_level_inference "warning: low").2.1
      (fun h => h.elim (fun ha => not_containsSub (by decide) ha)
        (fun hb => not_containsSub (by decide) hb))
      ⟨[], "ing: low".data, by decide⟩
  · exact (c10_log_level_inference "DEBUG trace").2.2.1
      (fun h => h.elim (fun ha => not_containsSub (by decide) ha)
        (fun hb => not_containsSub (by decide) hb))
      (fun h => not_containsSub (by decide) h)
      ⟨[], " trace".data, by decide⟩
  · exact (c10_log_level_inference "all fine").2.2.2
      (fun h => h.elim (fun ha => not_containsSub (by decide) ha)
        (fun hb => not_containsSub (by decide) hb))
      (fun h => not_containsSub (by decide) h)
      (fun h => not_containsSub (by decide) h)
